import Mathlib

/-!
Verification of the TileCache Cassandra backend
(`tilecache/TileCache/Caches/Cassandra.py`).

The Python source is shallowly embedded below:

* `Cassandra.part1by1`, `Cassandra.interleave2` — the Morton bit-spread and
  the X/Y interleaving, on `Nat` with explicit masking (Python ints are
  unbounded non-negative here, as in the source).
* `Cassandra.getColumnName` — `struct.pack(">LL", z, interleave2 x y)`;
  `struct.pack` with format `>L` raises `struct.error` for values outside
  `[0, 2^32)`, so the embedding returns an `Option` of the 8-byte list.
* `Cassandra.get` / `Cassandra.set` / `Cassandra.delete` — the tile store
  operations, with the remote column family modelled as a function from
  row key (layer name) and column name to an optional stored value.
  `pycassa`'s `NotFoundException` on a single-column read (raised both when
  the row is missing and when the column is missing) corresponds to the
  store function returning `none`; the `try/except` in `get` is embedded by
  returning the caught result directly.
* `Cassandra.attemptLock` — the memcache `add` call used for optimistic
  locking.  The memcache client and the `getLockName` helper of the `Cache`
  base class are not part of the embedded source tree, so they are modelled
  from the spec (see their doc comments).
-/

namespace Cassandra

/-- `part1by1` from the source: mask to 16 bits, then spread the bits so
each original bit lands on an even bit position of a 32-bit result. -/
def part1by1 (n : Nat) : Nat :=
  let n1 := n &&& 0x0000ffff
  let n2 := (n1 ||| (n1 <<< 8)) &&& 0x00FF00FF
  let n3 := (n2 ||| (n2 <<< 4)) &&& 0x0F0F0F0F
  let n4 := (n3 ||| (n3 <<< 2)) &&& 0x33333333
  (n4 ||| (n4 <<< 1)) &&& 0x55555555

/-- `interleave2` from the source: even bits from `x`, odd bits from `y`. -/
def interleave2 (x y : Nat) : Nat :=
  part1by1 x ||| (part1by1 y <<< 1)

/-- A map layer; the source only ever uses its `name`. -/
structure Layer where
  name : String
  deriving DecidableEq, Repr

/-- A tile: layer, grid position `x`/`y`, zoom `z`, and the mutable `data`
attribute that `get` assigns to on a hit. -/
structure Tile where
  layer : Layer
  x : Nat
  y : Nat
  z : Nat
  data : Option (List Nat)
  deriving DecidableEq, Repr

/-- `getKey`: `"/".join(map(str, [tile.layer.name, tile.x, tile.y, tile.z]))`. -/
def getKey (tile : Tile) : String :=
  String.intercalate "/" [tile.layer.name, toString tile.x, toString tile.y, toString tile.z]

/-- `getRowKey`: the layer name verbatim. -/
def getRowKey (tile : Tile) : String :=
  tile.layer.name

/-- Big-endian 4-byte encoding of a 32-bit value (one `>L` field of
`struct.pack`). -/
def be32 (n : Nat) : List Nat :=
  [n / 2 ^ 24 % 256, n / 2 ^ 16 % 256, n / 2 ^ 8 % 256, n % 256]

/-- `struct.pack(">LL", a, b)`: two big-endian 32-bit fields; raises
`struct.error` (here: `none`) when either value is out of 32-bit range. -/
def structPackLL (a b : Nat) : Option (List Nat) :=
  if a < 2 ^ 32 ∧ b < 2 ^ 32 then some (be32 a ++ be32 b) else none

/-- `getColumnName`: `struct.pack(">LL", tile.z, interleave2 tile.x tile.y)`. -/
def getColumnName (tile : Tile) : Option (List Nat) :=
  structPackLL tile.z (interleave2 tile.x tile.y)

end Cassandra

namespace Cassandra

theorem part1by1_le (n : Nat) : part1by1 n ≤ 0x55555555 := by
  unfold part1by1
  exact Nat.and_le_right

theorem part1by1_lt_two_pow_32 (n : Nat) : part1by1 n < 2 ^ 32 :=
  lt_of_le_of_lt (part1by1_le n) (by norm_num)

set_option maxHeartbeats 2000000 in
theorem part1by1_testBit_of_lt (n i : Nat) (h : i < 32) :
    (part1by1 n).testBit i = (decide (i % 2 = 0) && n.testBit (i / 2)) := by
  interval_cases i <;>
    (simp [part1by1, Nat.testBit_lor, Nat.testBit_land, Nat.testBit_shiftLeft] <;>
      simp [Nat.testBit_to_div_mod])

theorem part1by1_testBit (n i : Nat) :
    (part1by1 n).testBit i
      = (decide (i < 32) && (decide (i % 2 = 0) && n.testBit (i / 2))) := by
  rcases lt_or_ge i 32 with h | h
  · rw [part1by1_testBit_of_lt n i h]
    simp [h]
  · have hlt : part1by1 n < 2 ^ i :=
      lt_of_lt_of_le (part1by1_lt_two_pow_32 n) (Nat.pow_le_pow_right (by norm_num) h)
    simp [Nat.testBit_lt_two_pow hlt, show ¬(i < 32) from by omega]

theorem interleave2_testBit_even (x y j : Nat) :
    (interleave2 x y).testBit (2 * j) = (decide (j < 16) && x.testBit j) := by
  rcases Nat.eq_zero_or_pos j with hj | hj
  · subst hj
    have h0 := part1by1_testBit x 0
    simp at h0
    simpa [interleave2, Nat.testBit_lor, Nat.testBit_shiftLeft] using h0
  · have h2 : ¬((2 * j - 1) % 2 = 0) := by omega
    have h3 : 2 * j / 2 = j := by omega
    have h4 : (2 * j) % 2 = 0 := by omega
    have h5 : (decide (2 * j < 32) : Bool) = decide (j < 16) := by
      rcases Nat.lt_or_ge j 16 with h | h <;> simp [h] <;> omega
    simp [interleave2, Nat.testBit_lor, Nat.testBit_shiftLeft, part1by1_testBit,
      h2, h3, h4, h5]

theorem interleave2_testBit_odd (x y j : Nat) :
    (interleave2 x y).testBit (2 * j + 1) = (decide (j < 16) && y.testBit j) := by
  have h2 : (2 * j + 1) % 2 ≠ 0 := by omega
  have h3 : (2 * j + 1 - 1) % 2 = 0 := by omega
  have h4 : (2 * j + 1 - 1) / 2 = j := by omega
  have h5 : (decide (2 * j + 1 - 1 < 32) : Bool) = decide (j < 16) := by
    rcases Nat.lt_or_ge j 16 with h | h <;> simp [h] <;> omega
  have h6 : (decide (2 * j < 32) : Bool) = decide (j < 16) := by
    rcases Nat.lt_or_ge j 16 with h | h <;> simp [h] <;> omega
  simp [interleave2, Nat.testBit_lor, Nat.testBit_shiftLeft, part1by1_testBit,
    h2, h3, h4, h5, h6]

theorem testBit_false_of_lt_65536 (m : Nat) (hm : m < 65536) (j : Nat) (hj : 16 ≤ j) :
    m.testBit j = false :=
  Nat.testBit_lt_two_pow (lt_of_lt_of_le hm
    (le_trans (by norm_num : (65536 : Nat) ≤ 2 ^ 16) (Nat.pow_le_pow_right (by norm_num) hj)))

/-- C2: for every 16-bit `n`, `part1by1 n` is a 32-bit value whose bit `2*i`
equals bit `i` of `n` and whose odd bit positions are all zero; `part1by1`
itself is defined by the fixed mask-and-shift sequence of the source. -/
theorem part1by1_spreads_bits (n : Nat) (h : n < 65536) :
    part1by1 n < 2 ^ 32 ∧
      ∀ i : Nat, (part1by1 n).testBit (2 * i) = n.testBit i ∧
        (part1by1 n).testBit (2 * i + 1) = false := by
  refine ⟨part1by1_lt_two_pow_32 n, fun i => ⟨?_, ?_⟩⟩
  · rcases Nat.lt_or_ge i 16 with hi | hi
    · rw [part1by1_testBit]
      simp [show 2 * i < 32 from by omega, show 2 * i % 2 = 0 from by omega,
        show 2 * i / 2 = i from by omega]
    · rw [part1by1_testBit, testBit_false_of_lt_65536 n h i hi]
      simp [show ¬2 * i < 32 from by omega]
  · rw [part1by1_testBit]
    simp [show ¬(2 * i + 1) % 2 = 0 from by omega]

/-- Witness for C2 at `n = 5`, `i = 1`. -/
theorem part1by1_spreads_bits_witness :
    part1by1 5 < 2 ^ 32 ∧ (part1by1 5).testBit (2 * 1) = (5 : Nat).testBit 1 :=
  ⟨(part1by1_spreads_bits 5 (by norm_num)).1,
   ((part1by1_spreads_bits 5 (by norm_num)).2 1).1⟩

/-- C3: `interleave2` is injective on pairs of 16-bit values. -/
theorem interleave2_injective (x y x' y' : Nat)
    (hx : x < 65536) (hy : y < 65536) (hx' : x' < 65536) (hy' : y' < 65536)
    (h : interleave2 x y = interleave2 x' y') : x = x' ∧ y = y' := by
  constructor
  · apply Nat.eq_of_testBit_eq
    intro j
    rcases Nat.lt_or_ge j 16 with hj | hj
    · have e1 := interleave2_testBit_even x y j
      have e2 := interleave2_testBit_even x' y' j
      rw [h, e2] at e1
      simpa [hj] using e1.symm
    · rw [testBit_false_of_lt_65536 x hx j hj, testBit_false_of_lt_65536 x' hx' j hj]
  · apply Nat.eq_of_testBit_eq
    intro j
    rcases Nat.lt_or_ge j 16 with hj | hj
    · have e1 := interleave2_testBit_odd x y j
      have e2 := interleave2_testBit_odd x' y' j
      rw [h, e2] at e1
      simpa [hj] using e1.symm
    · rw [testBit_false_of_lt_65536 y hy j hj, testBit_false_of_lt_65536 y' hy' j hj]

/-- Witness for C3 at `x = 5, y = 2, x' = 5, y' = 2`. -/
theorem interleave2_injective_witness : (5 : Nat) = 5 ∧ (2 : Nat) = 2 :=
  interleave2_injective 5 2 5 2 (by norm_num) (by norm_num) (by norm_num) (by norm_num)
    (by decide)

theorem part1by1_mod_left (n : Nat) : part1by1 (n % 65536) = part1by1 n := by
  have h : n % 65536 &&& 65535 = n &&& 65535 := by
    rw [show (65535 : Nat) = 2 ^ 16 - 1 from by norm_num,
      show (65536 : Nat) = 2 ^ 16 from by norm_num,
      Nat.and_pow_two_sub_one_eq_mod, Nat.and_pow_two_sub_one_eq_mod]
    omega
  unfold part1by1
  rw [h]

/-- C9: coordinates of 16 bits or more are silently masked: `interleave2`
only depends on `x % 65536` and `y % 65536`. -/
theorem interleave2_mod_alias (x y : Nat) :
    interleave2 x y = interleave2 (x % 65536) (y % 65536) := by
  unfold interleave2
  rw [part1by1_mod_left x, part1by1_mod_left y]

theorem interleave2_lt_two_pow_32 (x y : Nat) : interleave2 x y < 2 ^ 32 := by
  have h2 : part1by1 y <<< 1 < 2 ^ 32 := by
    rw [Nat.shiftLeft_eq]
    have := part1by1_le y
    norm_num at this ⊢
    omega
  exact Nat.or_lt_two_pow (lt_of_le_of_lt (part1by1_le x) (by norm_num)) h2

/-- C1: for a tile whose zoom fits in 32 bits, `getColumnName` is the
big-endian 32-bit encoding of `z` followed by the big-endian 32-bit
encoding of `interleave2 x y`. -/
theorem getColumnName_bigEndian (t : Tile) (hz : t.z < 2 ^ 32) :
    getColumnName t = some (be32 t.z ++ be32 (interleave2 t.x t.y)) := by
  unfold getColumnName structPackLL
  rw [if_pos ⟨hz, interleave2_lt_two_pow_32 t.x t.y⟩]

/-- Witness for C1: the pinned fixture
`columnKey {z:3, x:5, y:2} = 00 00 00 03 00 00 00 19`. -/
theorem getColumnName_bigEndian_witness :
    getColumnName ⟨⟨"basic"⟩, 5, 2, 3, none⟩ = some [0, 0, 0, 3, 0, 0, 0, 0x19] := by
  rw [getColumnName_bigEndian ⟨⟨"basic"⟩, 5, 2, 3, none⟩ (by norm_num)]
  rfl

/-- Lexicographic (unsigned byte-wise) strict comparison of byte strings,
as the column store compares raw column names. -/
def lexLtBytes : List Nat → List Nat → Bool
  | [], [] => false
  | [], _ :: _ => true
  | _ :: _, [] => false
  | a :: as, b :: bs => decide (a < b) || (a == b && lexLtBytes as bs)

theorem lexLtBytes_append_left (p u v : List Nat) :
    lexLtBytes (p ++ u) (p ++ v) = lexLtBytes u v := by
  induction p with
  | nil => rfl
  | cons a p ih => simp [lexLtBytes, ih]

theorem lexLt_four (a3 a2 a1 a0 b3 b2 b1 b0 : Nat)
    (h0 : a0 < 256) (h1 : a1 < 256) (h2 : a2 < 256)
    (h3 : b0 < 256) (h4 : b1 < 256) (h5 : b2 < 256) :
    lexLtBytes [a3, a2, a1, a0] [b3, b2, b1, b0]
      = decide (a3 * 2 ^ 24 + a2 * 2 ^ 16 + a1 * 2 ^ 8 + a0
          < b3 * 2 ^ 24 + b2 * 2 ^ 16 + b1 * 2 ^ 8 + b0) := by
  rw [Bool.eq_iff_iff]
  simp only [lexLtBytes, Bool.or_eq_true, Bool.and_eq_true, decide_eq_true_eq,
    beq_iff_eq]
  norm_num
  omega

theorem be32_recompose (a : Nat) (ha : a < 2 ^ 32) :
    a / 2 ^ 24 % 256 * 2 ^ 24 + a / 2 ^ 16 % 256 * 2 ^ 16 + a / 2 ^ 8 % 256 * 2 ^ 8
      + a % 256 = a := by
  have qa1 : a / 2 ^ 8 / 2 ^ 8 = a / 2 ^ 16 := by
    rw [Nat.div_div_eq_div_mul]; norm_num
  have qa2 : a / 2 ^ 16 / 2 ^ 8 = a / 2 ^ 24 := by
    rw [Nat.div_div_eq_div_mul]; norm_num
  norm_num at ha qa1 qa2 ⊢
  omega

theorem lexLtBytes_be32 (a b : Nat) (ha : a < 2 ^ 32) (hb : b < 2 ^ 32) :
    lexLtBytes (be32 a) (be32 b) = decide (a < b) := by
  have h := lexLt_four (a / 2 ^ 24 % 256) (a / 2 ^ 16 % 256) (a / 2 ^ 8 % 256) (a % 256)
    (b / 2 ^ 24 % 256) (b / 2 ^ 16 % 256) (b / 2 ^ 8 % 256) (b % 256)
    (Nat.mod_lt _ (by norm_num)) (Nat.mod_lt _ (by norm_num)) (Nat.mod_lt _ (by norm_num))
    (Nat.mod_lt _ (by norm_num)) (Nat.mod_lt _ (by norm_num)) (Nat.mod_lt _ (by norm_num))
  rw [be32_recompose a ha, be32_recompose b hb] at h
  exact h

/-- C4: for a fixed zoom level, a column key is exactly 8 bytes, and byte
order of column keys agrees with numeric order of the interleaved value. -/
theorem getColumnName_length_and_order (t t' : Tile) (hz : t.z < 2 ^ 32)
    (hzz : t'.z = t.z) :
    ((getColumnName t).getD []).length = 8 ∧
      lexLtBytes ((getColumnName t).getD []) ((getColumnName t').getD [])
        = decide (interleave2 t.x t.y < interleave2 t'.x t'.y) := by
  have h1 := getColumnName_bigEndian t hz
  have h2 := getColumnName_bigEndian t' (by rw [hzz]; exact hz)
  rw [hzz] at h2
  rw [h1, h2]
  simp only [Option.getD_some]
  refine ⟨by simp [be32], ?_⟩
  rw [lexLtBytes_append_left]
  exact lexLtBytes_be32 _ _ (interleave2_lt_two_pow_32 t.x t.y)
    (interleave2_lt_two_pow_32 t'.x t'.y)

/-- Witness for C4 at two concrete tiles of the same zoom level. -/
theorem getColumnName_length_and_order_witness :
    ((getColumnName ⟨⟨"basic"⟩, 5, 2, 3, none⟩).getD []).length = 8 ∧
      lexLtBytes ((getColumnName ⟨⟨"basic"⟩, 5, 2, 3, none⟩).getD [])
          ((getColumnName ⟨⟨"basic"⟩, 1, 0, 3, none⟩).getD [])
        = decide (interleave2 5 2 < interleave2 1 0) :=
  getColumnName_length_and_order ⟨⟨"basic"⟩, 5, 2, 3, none⟩ ⟨⟨"basic"⟩, 1, 0, 3, none⟩
    (by norm_num) rfl

/-- The remote "Tiles" column family: row key (the layer name) and raw
column name map to an optionally stored value.  A `none` is exactly the
case in which pycassa raises `NotFoundException` on a single-column read
(missing row and missing column are indistinguishable there). -/
abbrev Store := String → List Nat → Option (List Nat)

/-- `get`: read the single column `getColumnName tile` of row
`getRowKey tile`; on a hit assign `tile.data` and return that value, on
`NotFoundException` return `None` leaving the tile unchanged.  The outer
`Option` is `struct.error` escaping from `getColumnName`. -/
def get (s : Store) (tile : Tile) : Option (Tile × Option (List Nat)) :=
  (getColumnName tile).map fun name =>
    match s (getRowKey tile) name with
    | some d => ({ tile with data := some d }, some d)
    | none => (tile, none)

/-- `set`: in read-only mode return the data untouched before any key is
computed; otherwise insert the one column into the layer's row and return
the data. -/
def set (readonly : Bool) (s : Store) (tile : Tile) (data : List Nat) :
    Option (Store × List Nat) :=
  if readonly then some (s, data)
  else
    (getColumnName tile).map fun name =>
      (fun l n => if l = getRowKey tile ∧ n = name then some data else s l n, data)

/-- `delete`: computes the (unused) column name, then removes the whole
row `getRowKey tile` from the column family. -/
def delete (s : Store) (tile : Tile) : Option Store :=
  (getColumnName tile).map fun _ =>
    fun l n => if l = getRowKey tile then none else s l n

/-- Memcache contents: key mapped to the absolute expiry time of a present
marker. -/
abbrev MemStore := String → Option Nat

/-- Modelled from the spec: the memcache client is an external black-box
coordination service (its code is not among the embedded sources).  Its
`add` is the documented add-if-absent operation: it stores the marker only
when no live entry for the key exists, and reports whether it stored. -/
def memcacheAdd (s : MemStore) (now : Nat) (key : String) (expiry : Nat) :
    MemStore × Bool :=
  match s key with
  | some e =>
    if now < e then (s, false)
    else (fun k => if k = key then some expiry else s k, true)
  | none => (fun k => if k = key then some expiry else s k, true)

/-- Modelled from the spec: `getLockName` lives in the `Cache` base class,
which is not among the embedded sources; the spec derives the LockToken
deterministically from the coordinate by joining layer/x/y/z into a single
string, which is exactly `getKey`. -/
def getLockName (tile : Tile) : String :=
  getKey tile

/-- `attemptLock`: `memcache.add(getLockName(tile), "0", time.time() + timeout)`. -/
def attemptLock (s : MemStore) (now timeout : Nat) (tile : Tile) : MemStore × Bool :=
  memcacheAdd s now (getLockName tile) (now + timeout)

/-- A marker for `key` is currently held: present and unexpired. -/
def heldAt (s : MemStore) (now : Nat) (key : String) : Prop :=
  ∃ e, s key = some e ∧ now < e

/-- C6: `get` returns the stored bytes when the addressed column exists and
an absent result (`None`, not an error) when the row or column does not
exist; the not-found condition never escapes as a failure. -/
theorem get_hit_or_absent (s : Store) (t : Tile) (hz : t.z < 2 ^ 32) :
    (∀ d, s (getRowKey t) ((getColumnName t).getD []) = some d →
        (get s t).map Prod.snd = some (some d)) ∧
      (s (getRowKey t) ((getColumnName t).getD []) = none →
        (get s t).map Prod.snd = some none) := by
  have h1 := getColumnName_bigEndian t hz
  constructor
  · intro d hd
    rw [h1] at hd
    simp only [Option.getD_some] at hd
    simp [get, h1, hd]
  · intro hd
    rw [h1] at hd
    simp only [Option.getD_some] at hd
    simp [get, h1, hd]

/-- Witness for C6: a hit returns the stored bytes, a miss returns absent. -/
theorem get_hit_or_absent_witness :
    ((get (fun _ _ => some [9]) ⟨⟨"basic"⟩, 5, 2, 3, none⟩).map Prod.snd
        = some (some [9])) ∧
      ((get (fun _ _ => none) ⟨⟨"basic"⟩, 5, 2, 3, none⟩).map Prod.snd
        = some none) :=
  ⟨(get_hit_or_absent (fun _ _ => some [9]) ⟨⟨"basic"⟩, 5, 2, 3, none⟩ (by norm_num)).1
      [9] rfl,
   (get_hit_or_absent (fun _ _ => none) ⟨⟨"basic"⟩, 5, 2, 3, none⟩ (by norm_num)).2 rfl⟩

/-- C10: on a hit `get` assigns the fetched bytes to the tile's `data`
field and returns that same value; on a miss the tile is left unchanged
and `None` is returned. -/
theorem get_assigns_tile_data (s : Store) (t : Tile) (hz : t.z < 2 ^ 32) :
    (∀ d, s (getRowKey t) ((getColumnName t).getD []) = some d →
        get s t = some ({ t with data := some d }, some d)) ∧
      (s (getRowKey t) ((getColumnName t).getD []) = none →
        get s t = some (t, none)) := by
  have h1 := getColumnName_bigEndian t hz
  constructor
  · intro d hd
    rw [h1] at hd
    simp only [Option.getD_some] at hd
    simp [get, h1, hd]
  · intro hd
    rw [h1] at hd
    simp only [Option.getD_some] at hd
    simp [get, h1, hd]

/-- Witness for C10: the returned tile carries the fetched bytes on a hit
and is unchanged on a miss. -/
theorem get_assigns_tile_data_witness :
    (get (fun _ _ => some [9]) ⟨⟨"basic"⟩, 5, 2, 3, none⟩
        = some (⟨⟨"basic"⟩, 5, 2, 3, some [9]⟩, some [9])) ∧
      (get (fun _ _ => none) ⟨⟨"basic"⟩, 5, 2, 3, none⟩
        = some (⟨⟨"basic"⟩, 5, 2, 3, none⟩, none)) :=
  ⟨(get_assigns_tile_data (fun _ _ => some [9]) ⟨⟨"basic"⟩, 5, 2, 3, none⟩
      (by norm_num)).1 [9] rfl,
   (get_assigns_tile_data (fun _ _ => none) ⟨⟨"basic"⟩, 5, 2, 3, none⟩
      (by norm_num)).2 rfl⟩

/-- C5: `delete` removes the entire row of the tile's layer: afterwards
`get` is absent for every tile of that layer, whatever was stored. -/
theorem delete_removes_layer (s : Store) (t t' : Tile)
    (hz : t.z < 2 ^ 32) (hz' : t'.z < 2 ^ 32) (hl : t'.layer = t.layer) :
    (delete s t).bind (fun s2 => get s2 t') = some (t', none) := by
  have h1 := getColumnName_bigEndian t hz
  have h2 := getColumnName_bigEndian t' hz'
  simp [delete, get, h1, h2, getRowKey, hl]

/-- Witness for C5: deleting via one tile makes a different tile of the
same layer (different x, y, z) read back absent. -/
theorem delete_removes_layer_witness :
    (delete (fun _ _ => some [7]) ⟨⟨"basic"⟩, 5, 2, 3, none⟩).bind
        (fun s2 => get s2 ⟨⟨"basic"⟩, 1, 9, 0, none⟩)
      = some (⟨⟨"basic"⟩, 1, 9, 0, none⟩, none) :=
  delete_removes_layer (fun _ _ => some [7]) ⟨⟨"basic"⟩, 5, 2, 3, none⟩
    ⟨⟨"basic"⟩, 1, 9, 0, none⟩ (by norm_num) (by norm_num) rfl

/-- C8: with the client configured read-only, `set` returns the input
bytes unchanged, keeps the store state identical, and every later `get`
(on any coordinate) is exactly as before the skipped write. -/
theorem set_readonly_noop (s : Store) (t : Tile) (d : List Nat) :
    set true s t d = some (s, d) ∧
      ∀ c : Tile, (set true s t d).map (fun p => get p.1 c) = some (get s c) :=
  ⟨rfl, fun _ => rfl⟩

/-- C7: `attemptLock` is a single add-if-absent of a marker keyed by the
LockToken (layer/x/y/z joined with "/"), with absolute expiry
`now + timeout`; it returns true iff no marker is currently held, creating
it exactly then, and changes nothing when it returns false. -/
theorem attemptLock_addIfAbsent (s : MemStore) (now timeout : Nat) (t : Tile) :
    ((attemptLock s now timeout t).2 = true ↔ ¬heldAt s now (getLockName t)) ∧
      ((attemptLock s now timeout t).2 = true →
        (attemptLock s now timeout t).1 (getLockName t) = some (now + timeout)) ∧
      ((attemptLock s now timeout t).2 = false →
        (attemptLock s now timeout t).1 = s) ∧
      getLockName t = String.intercalate "/"
        [t.layer.name, toString t.x, toString t.y, toString t.z] := by
  unfold attemptLock memcacheAdd heldAt
  rcases hk : s (getLockName t) with _ | e
  · simp [hk, getLockName, getKey]
  · rcases Nat.lt_or_ge now e with hlt | hge
    · simp [hk, hlt, getLockName, getKey]
    · simp [hk, show ¬now < e from by omega, getLockName, getKey]

/-- Witness for C7: on an empty coordination service the lock is granted. -/
theorem attemptLock_addIfAbsent_witness :
    (attemptLock (fun _ => none) 100 30 ⟨⟨"basic"⟩, 5, 2, 3, none⟩).2 = true :=
  ((attemptLock_addIfAbsent (fun _ => none) 100 30 ⟨⟨"basic"⟩, 5, 2, 3, none⟩).1).mpr
    (by simp [heldAt])

end Cassandra
